import Mathlib

/-!
Shallow embedding of the MultiplayerGame repository core:
the universal game engine (src/cdk/lambda/universal-game-engine.js)
and the client event bridge (src/cdk/frontend/multiplayer-lib.js).

JavaScript objects are modelled as insertion-ordered association
lists from field names to a JSON-like value type; property lookup,
assignment and spread-merge follow the JavaScript semantics for
objects whose keys are non-numeric strings (insertion order is
iteration order, assignment replaces in place, spread puts new keys
at the end). Wall-clock reads (Date.now) become an explicit `now`
argument, so every function is pure and executable.
-/

namespace MultiGame

/-- JSON-like value, the model of a JavaScript value as stored in a
game record. Missing properties are modelled as an absent key; the
JavaScript values null and undefined are both modelled by jnull,
which is adequate here because the engine only ever tests them for
truthiness or strict inequality with strings. -/
inductive JVal where
  | jnull : JVal
  | jbool : Bool → JVal
  | jnum : Int → JVal
  | jstr : String → JVal
  | jobj : List (String × JVal) → JVal
deriving Repr

mutual

/-- Boolean structural equality on JSON-like values. -/
def jeq : JVal → JVal → Bool
  | .jnull, .jnull => true
  | .jbool a, .jbool b => a = b
  | .jnum a, .jnum b => a = b
  | .jstr a, .jstr b => a = b
  | .jobj a, .jobj b => jeqF a b
  | _, _ => false

/-- Boolean structural equality on field lists. -/
def jeqF : List (String × JVal) → List (String × JVal) → Bool
  | [], [] => true
  | (k, v) :: ps, (k2, v2) :: qs => k = k2 && jeq v v2 && jeqF ps qs
  | _, _ => false

end

mutual

theorem jeq_iff : (a b : JVal) → (jeq a b = true ↔ a = b)
  | .jnull, b => by cases b <;> simp [jeq]
  | .jbool x, b => by cases b <;> simp [jeq]
  | .jnum x, b => by cases b <;> simp [jeq]
  | .jstr x, b => by cases b <;> simp [jeq]
  | .jobj x, b => by
      cases b <;> simp [jeq]
      exact jeqF_iff x _

theorem jeqF_iff : (a b : List (String × JVal)) → (jeqF a b = true ↔ a = b)
  | [], b => by cases b <;> simp [jeqF]
  | (k, v) :: ps, [] => by simp [jeqF]
  | (k, v) :: ps, (k2, v2) :: qs => by
      simp [jeqF, jeq_iff v v2, jeqF_iff ps qs, and_assoc]

end

instance : DecidableEq JVal := fun a b => decidable_of_iff (jeq a b = true) (jeq_iff a b)

/-- A JavaScript object: ordered list of fields with distinct keys. -/
abbrev JObj := List (String × JVal)

/-- JavaScript truthiness for the values we model. -/
def truthy : JVal → Bool
  | .jnull => false
  | .jbool b => b
  | .jnum n => n != 0
  | .jstr s => s != ""
  | .jobj _ => true

/-- Truthiness of a possibly missing property (undefined is falsy). -/
def truthyO : Option JVal → Bool
  | none => false
  | some v => truthy v

/-- Property read: first field with the given key. -/
def getF : JObj → String → Option JVal
  | [], _ => none
  | p :: rest, k => if p.1 = k then some p.2 else getF rest k

/-- Property assignment, as in JavaScript: replace the value in
place when the key exists, otherwise append the key at the end. -/
def setF (o : JObj) (k : String) (v : JVal) : JObj :=
  if o.any (fun p => p.1 = k) then
    o.map (fun p => if p.1 = k then (k, v) else p)
  else o ++ [(k, v)]

/-- Object spread-merge: apply the fields of u to o left to right,
exactly the semantics of a JavaScript object literal that spreads o
and then u. -/
def mergeF (o u : JObj) : JObj :=
  u.foldl (fun acc p => setF acc p.1 p.2) o

/-- Game record as persisted in the store and loaded by
loadGameState, with the JSON fields already parsed. Fields not read
by the engine are omitted except conversionStatus, which is kept so
that claims about it can be stated. -/
structure Game where
  gameId : String
  gameType : String
  gameState : JObj := []
  players : JObj := []
  metadata : JObj := []
  stateVersion : Int := 0
  conversionStatus : Option String := none
  serverLogicUrl : Option String := none
deriving Repr, DecidableEq

/-- A client action as destructured by processAction. The data
payload is modelled as an object (the engine only reads properties
from it or spreads it). -/
structure ActionData where
  type : String
  playerId : String
  data : JObj := []
deriving Repr, DecidableEq

/-- The players and metadata updates a handler may attach for
saveGameState (the additionalMetadata argument). -/
structure AddMeta where
  players : Option JObj := none
  metadata : Option JObj := none
deriving Repr, DecidableEq

/-- Result of processing one action. Combines the handler result
record (stateChanged, newState, metadata) with the response envelope
fields that the claims reference (success, error, broadcast). The
response state and timestamp fields are not tracked. -/
structure GResult where
  stateChanged : Bool
  newState : JObj := []
  meta : AddMeta := {}
  success : Bool
  error : Option String := none
  broadcast : Option JObj := none
deriving Repr, DecidableEq

/-- The engine treats a player record as active unless its active
property is strictly equal to false (players[id].active !== false). -/
def isActiveRec (v : JVal) : Bool :=
  match v with
  | .jobj o => getF o "active" != some (.jbool false)
  | _ => true

/-- Keys of the non-eliminated players, in insertion order:
Object.keys(players).filter(id => players[id].active !== false). -/
def activeIds (players : JObj) : List String :=
  (players.filter (fun p => isActiveRec p.2)).map Prod.fst

/-- Index of the first occurrence of x, as JavaScript indexOf but
with none in place of -1. -/
def jsIndexOf : List String → String → Option Nat
  | [], _ => none
  | a :: rest, x => if a = x then some 0 else (jsIndexOf rest x).map (· + 1)

/-- Turn advance of handleMove: playerIds[(currentIndex + 1) %
playerIds.length] on the active ids. A missing player gives
currentIndex -1 and hence index 0; an empty active list gives
playerIds[NaN], which is undefined (modelled jnull). -/
def nextTurnVal (players : JObj) (playerId : String) : JVal :=
  let ids := activeIds players
  if ids.isEmpty then .jnull
  else
    let i : Nat :=
      match jsIndexOf ids playerId with
      | some i => (i + 1) % ids.length
      | none => 0
    match ids[i]? with
    | some x => .jstr x
    | none => .jnull

/-- String coercion of a value used as a property key
(board[data.position]). Only string and integer positions occur;
the remaining constructors follow JavaScript ToString loosely. -/
def jsKeyString : JVal → String
  | .jstr s => s
  | .jnum n => toString n
  | .jbool b => if b then "true" else "false"
  | .jnull => "null"
  | .jobj _ => "object"

/-- Numeric read with JavaScript or-default: (v || 0) for a value
modelled as a number; non-numeric values are not modelled and give
the default. -/
def jsNumOr (v : Option JVal) (d : Int) : Int :=
  match v with
  | some (.jnum n) => if n = 0 then d else n
  | _ => d

/-- Kinds given the small default player cap in handleJoin:
gameType === turn-based, tictactoe or chess. -/
def turnBasedKind (t : String) : Bool :=
  t = "turn-based" || t = "tictactoe" || t = "chess"

/-- The player cap of handleJoin: metadata.maxPlayers when truthy
(modelled as a number) else 2 for the turn-based kinds else 8. -/
def maxPlayersOf (game : Game) : Int :=
  let dflt : Int := if turnBasedKind game.gameType then 2 else 8
  jsNumOr (getF game.metadata "maxPlayers") dflt

/-- Rejection result shared by every handler failure branch: a
response with success false and an error message, no state change,
no metadata, no broadcast. -/
def rejectWith (msg : String) : GResult :=
  { stateChanged := false, success := false, error := some msg }

/-- The handleJoin function of the engine. -/
def handleJoin (game : Game) (currentState : JObj) (playerId : String)
    (data : JObj) (now : Int) : GResult :=
  let players := game.players
  if truthyO (getF players playerId) then rejectWith "Player already in game"
  else if maxPlayersOf game ≤ (players.length : Int) then rejectWith "Game is full"
  else
    let newRec : JObj :=
      mergeF [("id", .jstr playerId), ("joinedAt", .jnum now),
              ("score", .jnum 0), ("active", .jbool true)] data
    let updatedPlayers := setF players playerId (.jobj newRec)
    let base :=
      mergeF currentState
        [("playerCount", .jnum updatedPlayers.length), ("lastActivity", .jnum now)]
    let updatedState :=
      if ¬ truthyO (getF currentState "currentTurn") ∧ updatedPlayers.length = 1
      then setF base "currentTurn" (.jstr playerId) else base
    { stateChanged := true, newState := updatedState,
      meta := { players := some updatedPlayers },
      success := true,
      broadcast := some [("type", .jstr "PLAYER_JOINED"),
                         ("playerId", .jstr playerId),
                         ("playerCount", .jnum updatedPlayers.length)] }

/-- The handleStart function of the engine. -/
def handleStart (game : Game) (currentState : JObj) (playerId : String)
    (data : JObj) (now : Int) : GResult :=
  if truthyO (getF currentState "gameActive") then rejectWith "Game already active"
  else
    let players := game.players
    let minP : Int := jsNumOr (getF game.metadata "minPlayers") 1
    if (players.length : Int) < minP then
      rejectWith ("Need at least " ++ toString minP ++ " players to start")
    else
      let ct : JVal :=
        if truthyO (getF currentState "currentTurn") then
          (getF currentState "currentTurn").getD .jnull
        else
          match players.head? with
          | some p => .jstr p.1
          | none => .jnull
      let updatedState :=
        mergeF (mergeF currentState
          [("gameActive", .jbool true), ("startedAt", .jnum now),
           ("startedBy", .jstr playerId), ("currentTurn", ct),
           ("round", .jnum 1)]) data
      { stateChanged := true, newState := updatedState, success := true,
        broadcast := some [("type", .jstr "GAME_STARTED"),
                           ("startedBy", .jstr playerId),
                           ("timestamp", .jnum now)] }

/-- The board win patterns of checkWinCondition. -/
def winPatterns : List (List String) :=
  [["0,0", "0,1", "0,2"], ["1,0", "1,1", "1,2"], ["2,0", "2,1", "2,2"],
   ["0,0", "1,0", "2,0"], ["0,1", "1,1", "2,1"], ["0,2", "1,2", "2,2"],
   ["0,0", "1,1", "2,2"], ["0,2", "1,1", "2,0"]]

/-- One pattern of checkWinCondition: take the board values of the
three cells, drop falsy ones, and report the common value when the
remaining three are equal. -/
def patternWinner (b : JObj) (pat : List String) : Option JVal :=
  let values := (pat.filterMap (fun pos => getF b pos)).filter truthy
  match values with
  | [v0, v1, v2] => if v0 = v1 ∧ v1 = v2 then some v0 else none
  | _ => none

/-- Score test of the target-score branch: players[id].score >=
state.targetScore with both modelled as numbers. -/
def scoreMeets (rec : JVal) (target : Int) : Bool :=
  match rec with
  | .jobj o =>
    match getF o "score" with
    | some (.jnum s) => target ≤ s
    | _ => false
  | _ => false

/-- The checkWinCondition function of the engine: target score
first, then last active player standing, then the 3x3 board check
which only runs when the board holds at least five values. -/
def checkWinCondition (state : JObj) (players : JObj) : Option JVal :=
  let scoreW : Option JVal :=
    match getF state "targetScore" with
    | some (.jnum t) =>
      if t ≠ 0 then
        ((players.filter (fun p => scoreMeets p.2 t)).head?).map (fun p => .jstr p.1)
      else none
    | _ => none
  match scoreW with
  | some w => some w
  | none =>
    match activeIds players with
    | [a] => some (.jstr a)
    | _ =>
      match getF state "board" with
      | some (.jobj b) =>
        if 5 ≤ b.length then winPatterns.findSome? (patternWinner b) else none
      | _ => none

/-- The state produced by handleMove before its win check: record
the move, bump moveCount, advance the turn when the state tracks
one, and apply a board position when the payload carries one. -/
def moveUpdatedState (game : Game) (currentState : JObj) (playerId : String)
    (data : JObj) (now : Int) : JObj :=
  let base :=
    mergeF currentState
      [("lastMove", .jobj [("playerId", .jstr playerId), ("data", .jobj data),
                           ("timestamp", .jnum now)]),
       ("moveCount", .jnum (jsNumOr (getF currentState "moveCount") 0 + 1)),
       ("lastActivity", .jnum now)]
  let s1 :=
    if truthyO (getF currentState "currentTurn") then
      setF base "currentTurn" (nextTurnVal game.players playerId)
    else base
  match getF data "position" with
  | none => s1
  | some posv =>
    let oldBoard : JObj :=
      match getF currentState "board" with
      | some (.jobj b) => b
      | _ => []
    setF s1 "board" (.jobj (setF oldBoard (jsKeyString posv) (.jstr playerId)))

/-- The handleMove function of the engine. -/
def handleMove (game : Game) (currentState : JObj) (playerId : String)
    (data : JObj) (now : Int) : GResult :=
  if ¬ truthyO (getF currentState "gameActive") then rejectWith "Game not active"
  else if ¬ truthyO (getF game.players playerId) then rejectWith "Player not in game"
  else if truthyO (getF currentState "currentTurn")
          ∧ getF currentState "currentTurn" ≠ some (.jstr playerId) then
    rejectWith "Not your turn"
  else
    let u := moveUpdatedState game currentState playerId data now
    let w := checkWinCondition u game.players
    let final :=
      match w with
      | some wv =>
        if truthy wv then
          mergeF u [("gameActive", .jbool false), ("winner", wv),
                    ("endedAt", .jnum now)]
        else u
      | none => u
    { stateChanged := true, newState := final, success := true,
      broadcast := some [("type", .jstr "MOVE_MADE"),
                         ("playerId", .jstr playerId),
                         ("move", .jobj data),
                         ("nextTurn", (getF final "currentTurn").getD .jnull),
                         ("winner", (getF final "winner").getD .jnull),
                         ("timestamp", .jnum now)] }

/-- The handleUpdate function of the engine. Note the system bypass
in the presence check. -/
def handleUpdate (game : Game) (currentState : JObj) (playerId : String)
    (data : JObj) (now : Int) : GResult :=
  let players := game.players
  if ¬ truthyO (getF players playerId) ∧ playerId ≠ "system" then
    rejectWith "Player not in game"
  else
    let dstate : JObj :=
      match getF data "state" with
      | some (.jobj o) => o
      | _ => []
    let updatedState := mergeF (mergeF currentState dstate) [("lastActivity", .jnum now)]
    let updatedPlayers :=
      if truthyO (getF data "playerData") then
        let pd : JObj :=
          match getF data "playerData" with
          | some (.jobj o) => o
          | _ => []
        let oldRec : JObj :=
          match getF players playerId with
          | some (.jobj o) => o
          | _ => []
        setF players playerId (.jobj (mergeF oldRec pd))
      else players
    { stateChanged := true, newState := updatedState,
      meta := { players := some updatedPlayers },
      success := true,
      broadcast := some [("type", .jstr "STATE_UPDATE"),
                         ("playerId", .jstr playerId),
                         ("updates", .jobj data),
                         ("timestamp", .jnum now)] }

/-- Final scores of handleEnd: players[id].score || 0 per player, in
insertion order. -/
def getFinalScores (players : JObj) : JObj :=
  players.map (fun p =>
    (p.1,
     match p.2 with
     | .jobj o =>
       match getF o "score" with
       | some v => if truthy v then v else .jnum 0
       | none => .jnum 0
     | _ => .jnum 0))

/-- The handleEnd function of the engine. It checks the active flag
but never the presence of the submitting player. -/
def handleEnd (game : Game) (currentState : JObj) (playerId : String)
    (data : JObj) (now : Int) : GResult :=
  if ¬ truthyO (getF currentState "gameActive") then rejectWith "Game not active"
  else
    let players := game.players
    let winner : JVal :=
      match getF data "winner" with
      | some v => if truthy v then v else .jnull
      | none => .jnull
    let updatedState :=
      mergeF (mergeF currentState
        [("gameActive", .jbool false), ("endedAt", .jnum now),
         ("endedBy", .jstr playerId), ("winner", winner),
         ("finalScores", .jobj (getFinalScores players))]) data
    { stateChanged := true, newState := updatedState, success := true,
      broadcast := some [("type", .jstr "GAME_ENDED"),
                         ("endedBy", .jstr playerId),
                         ("winner", (getF updatedState "winner").getD .jnull),
                         ("finalScores", (getF updatedState "finalScores").getD .jnull),
                         ("timestamp", .jnum now)] }

/-- Dispatch of processGenericAction. Unknown action types are
recorded as a success with no state change. -/
def processGenericAction (game : Game) (currentState : JObj) (a : ActionData)
    (now : Int) : GResult :=
  if a.type = "JOIN" ∨ a.type = "join" then
    handleJoin game currentState a.playerId a.data now
  else if a.type = "START" ∨ a.type = "start" then
    handleStart game currentState a.playerId a.data now
  else if a.type = "MOVE" ∨ a.type = "move" then
    handleMove game currentState a.playerId a.data now
  else if a.type = "UPDATE" ∨ a.type = "update" then
    handleUpdate game currentState a.playerId a.data now
  else if a.type = "END" ∨ a.type = "end" then
    handleEnd game currentState a.playerId a.data now
  else
    { stateChanged := false, success := true }

/-- Substring test on character lists, for the
serverLogicUrl.includes check. -/
def subOccurs (needle : List Char) : List Char → Bool
  | [] => needle.isEmpty
  | c :: rest => needle.isPrefixOf (c :: rest) || subOccurs needle rest

/-- JavaScript includes on strings. -/
def strIncludes (s sub : String) : Bool :=
  subOccurs sub.toList s.toList

/-- Guard of the validator path: game.serverLogicUrl is truthy and
contains the Lambda ARN scheme. -/
def hasValidator (g : Game) : Bool :=
  match g.serverLogicUrl with
  | some url => url != "" && strIncludes url "arn:aws:lambda"
  | none => false

/-- The reply of a deployed per-game validator Lambda, as decoded by
invokeValidator. The updatedState is an object when present; the
metadata claims only ever use its players and metadata fields, which
saveGameState reads. -/
structure VOut where
  valid : Bool
  reason : Option String := none
  updatedState : Option JObj := none
  broadcast : Option JObj := none
  meta : AddMeta := {}
deriving Repr, DecidableEq

/-- The response transformation of invokeValidator: stateChanged is
valid and updatedState truthy, success mirrors valid, the error is
the reason, and the broadcast is passed through unconditionally. -/
def validatorTransform (v : VOut) : GResult :=
  { stateChanged := v.valid && v.updatedState.isSome,
    newState := v.updatedState.getD [],
    meta := v.meta,
    success := v.valid,
    error := v.reason,
    broadcast := v.broadcast }

/-- The processAction function: when a validator is configured and
its invocation yields a reply, use the transformed reply; otherwise
(no validator, or invocation failure modelled as none) fall back to
generic processing of game.gameState. -/
def processAction (game : Game) (a : ActionData) (vres : Option VOut)
    (now : Int) : GResult :=
  if hasValidator game then
    match vres with
    | some v => validatorTransform v
    | none => processGenericAction game game.gameState a now
  else processGenericAction game game.gameState a now

/-- The saveGameState function: the new version is Date.now() (the
now argument), the state is always written, and players or metadata
are written when the handler supplied them. Other fields of the
stored record are untouched. -/
def saveGameState (game : Game) (newState : JObj) (meta : AddMeta)
    (now : Int) : Game :=
  { game with
    gameState := newState,
    stateVersion := now,
    players := meta.players.getD game.players,
    metadata := meta.metadata.getD game.metadata }

/-- Outcome of processGameAction on a loaded room: the stored record
after processing, and the response envelope fields the claims
reference. stateVersion is attached to the response only when a save
happened. -/
structure SubmitResult where
  room : Game
  success : Bool
  error : Option String := none
  broadcast : Option JObj := none
  stateVersion : Option Int := none
deriving Repr, DecidableEq

/-- The processGameAction function on a room that was found: process
the action, and persist through saveGameState exactly when the
result reports a state change. -/
def submitAction (game : Game) (a : ActionData) (vres : Option VOut)
    (now : Int) : SubmitResult :=
  let r := processAction game a vres now
  if r.stateChanged then
    { room := saveGameState game r.newState r.meta now,
      success := r.success, error := r.error, broadcast := r.broadcast,
      stateVersion := some now }
  else
    { room := game, success := r.success, error := r.error,
      broadcast := r.broadcast }

/-- The processGameAction function including room resolution: a
missing room raises the Game-not-found error. -/
def submitLookup (room : Option Game) (gameId : String) (a : ActionData)
    (vres : Option VOut) (now : Int) : Except String SubmitResult :=
  match room with
  | none => .error ("Game " ++ gameId ++ " not found")
  | some g => .ok (submitAction g a vres now)

/-- One event as stamped by the bridge emit: its type, priority and
the per-session sequence number. The data payload takes no part in
the ordering claims and is omitted. -/
structure BEvent where
  etype : String
  priority : String
  seqNo : Nat
deriving Repr, DecidableEq

/-- State of a GameEventBridge instance: the batching flag, the
sequence counter, the pending event queue, and the list of batches
posted to the parent frame so far, each batch in post order. -/
structure Bridge where
  batchEvents : Bool
  seq : Nat := 0
  queue : List BEvent := []
  sent : List (List BEvent) := []
deriving Repr, DecidableEq

/-- A fresh bridge as built by the constructor. -/
def initBridge (batchOn : Bool) : Bridge :=
  { batchEvents := batchOn }

/-- The valid event types accepted by emit. -/
def validEventTypes : List String :=
  ["TRANSITION", "INTERACTION", "UPDATE", "ERROR"]

/-- The flushEventQueue method: post the whole queue as one batch,
in queue order, unless it is empty. -/
def flushEventQueue (b : Bridge) : Bridge :=
  if b.queue.isEmpty then b
  else { b with queue := [], sent := b.sent ++ [b.queue] }

/-- The scheduleBatch method: with batching on, flush once the queue
holds more than 50 events. -/
def scheduleBatch (b : Bridge) : Bridge :=
  if ¬ b.batchEvents then b
  else if 50 < b.queue.length then flushEventQueue b
  else b

/-- The emit method. An invalid type returns null and leaves the
bridge untouched. Otherwise the event is stamped with the current
sequence number, the counter is bumped, and the event is either
posted at once (options.immediate, or batching off) or appended to
the queue followed by scheduleBatch. The decision never looks at the
event type or priority. -/
def emitEvent (b : Bridge) (etype priority : String) (immediate : Bool) :
    Bridge × Option BEvent :=
  if ¬ validEventTypes.contains etype then (b, none)
  else
    let e : BEvent := { etype := etype, priority := priority, seqNo := b.seq }
    let b1 := { b with seq := b.seq + 1 }
    if immediate || !b.batchEvents then
      ({ b1 with sent := b1.sent ++ [[e]] }, some e)
    else
      (scheduleBatch { b1 with queue := b1.queue ++ [e] }, some e)

/-- The operations a session can perform on a bridge: an emit call,
a timer or stop flush, and a config update of the batching flag. -/
inductive BridgeOp where
  | emitOp (etype priority : String) (immediate : Bool)
  | flushOp
  | setBatch (flag : Bool)
deriving Repr, DecidableEq

/-- Apply one operation to the bridge state. -/
def stepOp (b : Bridge) : BridgeOp → Bridge
  | .emitOp t p i => (emitEvent b t p i).1
  | .flushOp => flushEventQueue b
  | .setBatch v => { b with batchEvents := v }

/-- Run a list of operations. -/
def runOps (b : Bridge) : List BridgeOp → Bridge
  | [] => b
  | op :: rest => runOps (stepOp b op) rest

/-- Sequence numbers of the events returned by the emit calls of a
run, in call order; emits rejected for an invalid type return null
and contribute nothing. -/
def emittedSeqs (b : Bridge) : List BridgeOp → List Nat
  | [] => []
  | .emitOp t p i :: rest =>
    match (emitEvent b t p i).2 with
    | some e => e.seqNo :: emittedSeqs (stepOp b (.emitOp t p i)) rest
    | none => emittedSeqs (stepOp b (.emitOp t p i)) rest
  | op :: rest => emittedSeqs (stepOp b op) rest

/-- Boolean strict increase of a number list. -/
def strictIncB : List Nat → Bool
  | [] => true
  | [_] => true
  | a :: b :: rest => a < b && strictIncB (b :: rest)

/-- Sequence numbers of a batch. -/
def seqsOf (l : List BEvent) : List Nat := l.map BEvent.seqNo

/-- Well-formedness of a bridge state: the queued events carry
strictly increasing sequence numbers all below the counter, and
every batch posted so far is strictly increasing. -/
def bridgeOK (b : Bridge) : Prop :=
  strictIncB (seqsOf b.queue) = true ∧
  (∀ e ∈ b.queue, e.seqNo < b.seq) ∧
  b.sent.all (fun batch => strictIncB (seqsOf batch)) = true

/-- Modelled from the spec: the next non-eliminated player after P
in player-insertion order, modulo the active set. Rotate the
insertion order to start just after P and take the first active
player. Used to compare the turn rule of handleMove against the
words of the spec. -/
def specNextActive (ids : List String) (act : String → Bool) (p : String) :
    Option String :=
  match jsIndexOf ids p with
  | none => none
  | some i => ((ids.drop (i + 1) ++ ids.take (i + 1)).filter act).head?

/-- Activity of a player id as recorded in a players object. -/
def actOf (players : JObj) (id : String) : Bool :=
  match getF players id with
  | some v => isActiveRec v
  | none => false

/-! Concrete rooms and inputs used by the witnesses and
counterexamples below. -/

/-- A plain player record as handleJoin would create it. -/
def mkRec (id : String) : JVal :=
  .jobj [("id", .jstr id), ("joinedAt", .jnum 0), ("score", .jnum 0),
         ("active", .jbool true)]

/-- Move payload for a board position. -/
def posData (pos : String) : JObj := [("position", .jstr pos)]

/-- A two player tictactoe room, started, with p1 to move. -/
def exTtt : Game :=
  { gameId := "R2", gameType := "tictactoe",
    players := [("p1", mkRec "p1"), ("p2", mkRec "p2")],
    gameState := [("gameActive", .jbool true), ("currentTurn", .jstr "p1")] }

/-- States of exTtt after the first four moves of the diagonal
scenario of the spec. -/
def exTttS1 : JObj := (handleMove exTtt exTtt.gameState "p1" (posData "0,0") 1).newState

def exTttS2 : JObj := (handleMove exTtt exTttS1 "p2" (posData "1,0") 2).newState

def exTttS3 : JObj := (handleMove exTtt exTttS2 "p1" (posData "1,1") 3).newState

def exTttS4 : JObj := (handleMove exTtt exTttS3 "p2" (posData "2,0") 4).newState

/-- The board held by the state the fifth move produces. -/
def exTttBoard : JObj :=
  [("0,0", .jstr "p1"), ("1,0", .jstr "p2"), ("1,1", .jstr "p1"),
   ("2,0", .jstr "p2"), ("2,2", .jstr "p1")]

/-- An active room with no turn tracking, where one player may move
repeatedly. -/
def exFree : Game :=
  { gameId := "R", gameType := "custom-game",
    players := [("p1", mkRec "p1"), ("p2", mkRec "p2")],
    gameState := [("gameActive", .jbool true)] }

/-- States of exFree after p1 claims 0,0 and then 0,1. -/
def exFreeS1 : JObj := (handleMove exFree exFree.gameState "p1" (posData "0,0") 1).newState

def exFreeS2 : JObj := (handleMove exFree exFreeS1 "p1" (posData "0,1") 2).newState

/-- Players where the stored turn holder P is eliminated while A
and B are active. -/
def exElimPlayers : JObj :=
  [("A", .jobj [("active", .jbool true)]),
   ("P", .jobj [("active", .jbool false)]),
   ("B", .jobj [("active", .jbool true)])]

/-- A turn-based room whose current turn holder is eliminated. -/
def exElim : Game :=
  { gameId := "R", gameType := "turn-based", players := exElimPlayers,
    gameState := [("gameActive", .jbool true), ("currentTurn", .jstr "P")] }

/-- An empty turn-based room at stored version 100. -/
def exFresh : Game :=
  { gameId := "g", gameType := "turn-based", stateVersion := 100 }

/-- A JOIN action by p1 with no payload. -/
def exJoin : ActionData := { type := "JOIN", playerId := "p1" }

/-- A MOVE action by p1 with no payload. -/
def exMove : ActionData := { type := "MOVE", playerId := "p1" }

/-- An active one player room. -/
def exSolo : Game :=
  { gameId := "g", gameType := "turn-based",
    players := [("p1", mkRec "p1")],
    gameState := [("gameActive", .jbool true)] }

/-- A room wired to a deployed validator Lambda. -/
def exWithValidator : Game :=
  { gameId := "g", gameType := "custom-game",
    serverLogicUrl := some "arn:aws:lambda:us-east-2:1:function:v" }

/-- A validator reply that rejects the action yet carries a
broadcast object. -/
def exVOut : VOut :=
  { valid := false, reason := some "ILLEGAL_MOVE",
    broadcast := some [("type", .jstr "MOVE_MADE")] }

/-- A full two player turn-based room with default metadata. -/
def exFull : Game :=
  { gameId := "g", gameType := "turn-based",
    players := [("p1", mkRec "p1"), ("p2", mkRec "p2")] }

/-- A room whose conversion is still pending. -/
def exPending : Game :=
  { gameId := "P1", gameType := "turn-based",
    conversionStatus := some "pending" }

/-! Lemmas about the object model. -/

theorem getF_append (o u : JObj) (k : String) :
    getF (o ++ u) k = match getF o k with | some v => some v | none => getF u k := by
  induction o with
  | nil => simp [getF]
  | cons p rest ih =>
    by_cases h : p.1 = k <;> simp [getF, h, ih]

theorem getF_eq_none_iff (o : JObj) (k : String) :
    getF o k = none ↔ o.any (fun p => p.1 = k) = false := by
  induction o with
  | nil => simp [getF]
  | cons p rest ih =>
    by_cases h : p.1 = k <;> simp [getF, h, ih]

theorem getF_map_replace (o : JObj) (k : String) (v : JVal) :
    getF (o.map (fun p => if p.1 = k then (k, v) else p)) k =
      if o.any (fun p => p.1 = k) then some v else none := by
  induction o with
  | nil => simp [getF]
  | cons p rest ih =>
    by_cases h : p.1 = k
    · simp [getF, h]
    · have hd : (decide (p.1 = k)) = false := by simp [h]
      simp only [List.map_cons, if_neg h, getF, List.any_cons, hd, Bool.false_or]
      exact ih

theorem getF_map_replace_ne (o : JObj) (k k2 : String) (v : JVal) (h : k2 ≠ k) :
    getF (o.map (fun p => if p.1 = k then (k, v) else p)) k2 = getF o k2 := by
  induction o with
  | nil => simp [getF]
  | cons p rest ih =>
    have hk2k : ¬ (k = k2) := fun hh => h hh.symm
    by_cases hp : p.1 = k
    · simp [getF, hp, hk2k, ih]
    · by_cases hp2 : p.1 = k2 <;> simp [getF, hp, hp2, h, hk2k, ih]

theorem getF_setF_self (o : JObj) (k : String) (v : JVal) :
    getF (setF o k v) k = some v := by
  unfold setF
  by_cases h : o.any (fun p => p.1 = k) = true
  · simp [h, getF_map_replace]
  · have hn : getF o k = none :=
      (getF_eq_none_iff o k).2 (by simpa only [Bool.not_eq_true] using h)
    rw [if_neg h, getF_append, hn]
    simp [getF]

theorem getF_setF_ne (o : JObj) (k k2 : String) (v : JVal) (h : k2 ≠ k) :
    getF (setF o k v) k2 = getF o k2 := by
  unfold setF
  by_cases ha : o.any (fun p => p.1 = k) = true
  · simp [ha, getF_map_replace_ne o k k2 v h]
  · rw [if_neg ha, getF_append]
    cases hg : getF o k2 with
    | some w => simp
    | none => simp [getF, Ne.symm h]

theorem mergeF_nil (o : JObj) : mergeF o [] = o := rfl

theorem mergeF_cons (o : JObj) (p : String × JVal) (u : JObj) :
    mergeF o (p :: u) = mergeF (setF o p.1 p.2) u := rfl

theorem getF_mergeF_not_mem (o u : JObj) (k : String)
    (h : k ∉ u.map Prod.fst) :
    getF (mergeF o u) k = getF o k := by
  induction u generalizing o with
  | nil => rfl
  | cons p rest ih =>
    simp only [List.map_cons, List.mem_cons] at h
    push_neg at h
    rw [mergeF_cons, ih _ h.2, getF_setF_ne o p.1 k p.2 h.1]

theorem getF_mergeF_of_get (o u : JObj) (k : String) (v : JVal)
    (hnd : (u.map Prod.fst).Nodup) (h : getF u k = some v) :
    getF (mergeF o u) k = some v := by
  induction u generalizing o with
  | nil => simp [getF] at h
  | cons p rest ih =>
    simp only [List.map_cons, List.nodup_cons] at hnd
    by_cases hk : p.1 = k
    · have hv : p.2 = v := by simpa [getF, hk] using h
      rw [mergeF_cons, getF_mergeF_not_mem _ _ _ (by rw [← hk]; exact hnd.1)]
      rw [hk, hv, getF_setF_self]
    · have h2 : getF rest k = some v := by simpa [getF, hk] using h
      rw [mergeF_cons]
      exact ih _ hnd.2 h2

/-! Rejection shape of the generic handlers: a handler response with
success false is exactly a rejectWith record. -/

theorem handleJoin_fail (g : Game) (st : JObj) (pid : String) (d : JObj) (now : Int)
    (h : (handleJoin g st pid d now).success = false) :
    ∃ m, handleJoin g st pid d now = rejectWith m := by
  unfold handleJoin at h ⊢
  dsimp only at h ⊢
  split_ifs at h ⊢ <;> first | exact ⟨_, rfl⟩ | simp at h

theorem handleStart_fail (g : Game) (st : JObj) (pid : String) (d : JObj) (now : Int)
    (h : (handleStart g st pid d now).success = false) :
    ∃ m, handleStart g st pid d now = rejectWith m := by
  unfold handleStart at h ⊢
  dsimp only at h ⊢
  split_ifs at h ⊢ <;> first | exact ⟨_, rfl⟩ | simp at h

theorem handleMove_fail (g : Game) (st : JObj) (pid : String) (d : JObj) (now : Int)
    (h : (handleMove g st pid d now).success = false) :
    ∃ m, handleMove g st pid d now = rejectWith m := by
  unfold handleMove at h ⊢
  dsimp only at h ⊢
  split_ifs at h ⊢ <;> first | exact ⟨_, rfl⟩ | simp at h

theorem handleUpdate_fail (g : Game) (st : JObj) (pid : String) (d : JObj) (now : Int)
    (h : (handleUpdate g st pid d now).success = false) :
    ∃ m, handleUpdate g st pid d now = rejectWith m := by
  unfold handleUpdate at h ⊢
  dsimp only at h ⊢
  split_ifs at h ⊢ <;> first | exact ⟨_, rfl⟩ | simp at h

theorem handleEnd_fail (g : Game) (st : JObj) (pid : String) (d : JObj) (now : Int)
    (h : (handleEnd g st pid d now).success = false) :
    ∃ m, handleEnd g st pid d now = rejectWith m := by
  unfold handleEnd at h ⊢
  dsimp only at h ⊢
  split_ifs at h ⊢ <;> first | exact ⟨_, rfl⟩ | simp at h

theorem processGenericAction_fail (g : Game) (st : JObj) (a : ActionData) (now : Int)
    (h : (processGenericAction g st a now).success = false) :
    ∃ m, processGenericAction g st a now = rejectWith m := by
  unfold processGenericAction at h ⊢
  split_ifs at h ⊢ <;>
    first
      | exact handleJoin_fail _ _ _ _ _ h
      | exact handleStart_fail _ _ _ _ _ h
      | exact handleMove_fail _ _ _ _ _ h
      | exact handleUpdate_fail _ _ _ _ _ h
      | exact handleEnd_fail _ _ _ _ _ h
      | simp at h

/-- A processed action whose result reports a state change was
accepted: stateChanged true forces success true on every path. -/
theorem processAction_changed_success (g : Game) (a : ActionData)
    (v : Option VOut) (now : Int)
    (h : (processAction g a v now).stateChanged = true) :
    (processAction g a v now).success = true := by
  cases hs : (processAction g a v now).success
  · exfalso
    unfold processAction at h hs
    by_cases hv : hasValidator g
    · cases v with
      | some vo =>
        simp only [hv, if_true] at h hs
        simp [validatorTransform] at h hs
        simp [hs] at h
      | none =>
        simp only [hv, if_true] at h hs
        obtain ⟨m, hm⟩ := processGenericAction_fail _ _ _ _ hs
        rw [hm] at h
        simp [rejectWith] at h
    · simp only [hv, if_false] at h hs
      obtain ⟨m, hm⟩ := processGenericAction_fail _ _ _ _ hs
      rw [hm] at h
      simp [rejectWith] at h
  · rfl

/-- Claim C1 (amended). On every action whose processing reports a
state change, the committed version is the wall clock value now, the
submit response carries it, and the action was accepted; the new
version exceeds the old one only when the wall clock does. When no
state change is reported the stored record is returned unchanged.
The spec formula max(current + 1, clock) is not what the code
computes; see the counterexample. -/
theorem C1_version_wall_clock (g : Game) (a : ActionData) (v : Option VOut) (now : Int) :
    ((processAction g a v now).stateChanged = true →
      (submitAction g a v now).room.stateVersion = now ∧
      (submitAction g a v now).stateVersion = some now ∧
      (processAction g a v now).success = true ∧
      (g.stateVersion < now → g.stateVersion < (submitAction g a v now).room.stateVersion)) ∧
    ((processAction g a v now).stateChanged = false →
      (submitAction g a v now).room = g ∧
      (submitAction g a v now).stateVersion = none) := by
  constructor
  · intro h
    refine ⟨?_, ?_, processAction_changed_success g a v now h, ?_⟩ <;>
      simp [submitAction, h, saveGameState]
  · intro h
    simp [submitAction, h]

/-- Claim C1 witness: a JOIN on the empty room at clock 150 commits
version 150, strictly above the stored version 100. -/
theorem C1_witness :
    (submitAction exFresh exJoin none 150).room.stateVersion = 150 ∧
    (submitAction exFresh exJoin none 150).success = true ∧
    exFresh.stateVersion < (submitAction exFresh exJoin none 150).room.stateVersion := by
  have h := C1_version_wall_clock exFresh exJoin none 150
  have hc := h.1 (by decide)
  exact ⟨hc.1, hc.2.2.1, hc.2.2.2 (by decide)⟩

/-- Claim C1 counterexample: a JOIN accepted at clock 100 on a room
whose stored version is already 100 commits version 100, which is
neither max(current + 1, clock) = 101 nor strictly above the stored
version, refuting the claimed version formula. -/
theorem C1_counterexample :
    (submitAction exFresh exJoin none 100).success = true ∧
    (submitAction exFresh exJoin none 100).stateVersion = some 100 ∧
    (submitAction exFresh exJoin none 100).room.stateVersion = 100 ∧
    ¬ (exFresh.stateVersion < (submitAction exFresh exJoin none 100).room.stateVersion) ∧
    (submitAction exFresh exJoin none 100).room.stateVersion ≠
      max (exFresh.stateVersion + 1) 100 := by
  decide

/-- Claim C2 (amended). A rejected action never reports a state
change, the stored record is returned unchanged with no version on
the response, and on the generic path the failure envelope carries
no broadcast. On the validator path the code copies any broadcast
field of the validator reply into the failure envelope; see the
counterexample. -/
theorem C2_rejection_no_write (g : Game) (a : ActionData) (v : Option VOut) (now : Int)
    (h : (processAction g a v now).success = false) :
    (processAction g a v now).stateChanged = false ∧
    (submitAction g a v now).room = g ∧
    (submitAction g a v now).stateVersion = none ∧
    ((hasValidator g = false ∨ v = none) →
      (processAction g a v now).broadcast = none) := by
  have hch : (processAction g a v now).stateChanged = false := by
    cases hc : (processAction g a v now).stateChanged
    · rfl
    · rw [processAction_changed_success g a v now hc] at h
      exact absurd h (by simp)
  refine ⟨hch, ?_, ?_, ?_⟩
  · simp [submitAction, hch]
  · simp [submitAction, hch]
  · intro hgen
    unfold processAction at h ⊢
    by_cases hv : hasValidator g
    · cases v with
      | some vo => rcases hgen with hg | hg <;> simp_all
      | none =>
        simp only [hv, if_true] at h ⊢
        obtain ⟨m, hm⟩ := processGenericAction_fail _ _ _ _ h
        rw [hm]
        rfl
    · simp only [hv, if_false] at h ⊢
      obtain ⟨m, hm⟩ := processGenericAction_fail _ _ _ _ h
      rw [hm]
      rfl

/-- Claim C2 witness: a duplicate JOIN on a full room is rejected
without any write and without a broadcast. -/
theorem C2_witness :
    (submitAction exFull exJoin none 5).room = exFull ∧
    (submitAction exFull exJoin none 5).stateVersion = none ∧
    (processAction exFull exJoin none 5).broadcast = none := by
  have h := C2_rejection_no_write exFull exJoin none 5 (by decide)
  exact ⟨h.2.1, h.2.2.1, h.2.2.2 (by decide)⟩

/-- Claim C2 counterexample: a validator reply with valid false and
a broadcast object yields a failure envelope that still carries a
broadcast, refuting the part of the claim that no broadcast is
produced on any rejection. -/
theorem C2_counterexample :
    (processAction exWithValidator exMove (some exVOut) 9).success = false ∧
    (processAction exWithValidator exMove (some exVOut) 9).broadcast ≠ none ∧
    (submitAction exWithValidator exMove (some exVOut) 9).room = exWithValidator := by
  decide

/-- Claim C3 (amended). The engine never inspects conversionStatus:
processing a room with any conversion status gives exactly the
result of processing the same room with any other status, the status
being carried through unchanged. There is no ROOM_NOT_READY gate. -/
theorem C3_status_not_checked (g : Game) (a : ActionData) (v : Option VOut)
    (now : Int) (s : Option String) :
    submitAction { g with conversionStatus := s } a v now =
      { submitAction g a v now with
        room := { (submitAction g a v now).room with conversionStatus := s } } := by
  have hpa : processAction { g with conversionStatus := s } a v now =
      processAction g a v now := by
    cases g
    rfl
  have hsv : ∀ ns m, saveGameState { g with conversionStatus := s } ns m now =
      { saveGameState g ns m now with conversionStatus := s } := by
    intro ns m
    cases g
    rfl
  unfold submitAction
  rw [hpa]
  cases hch : (processAction g a v now).stateChanged <;>
    simp [hch, hsv]

/-- Claim C3 counterexample: a JOIN on a room whose conversion
status is pending is processed and accepted, rather than failing
with ROOM_NOT_READY. -/
theorem C3_counterexample :
    exPending.conversionStatus = some "pending" ∧
    (submitAction exPending exJoin none 5).success = true ∧
    (submitAction exPending exJoin none 5).error = none ∧
    (submitAction exPending exJoin none 5).room ≠ exPending := by
  decide

theorem setF_not_mem (o : JObj) (k : String) (v : JVal)
    (h : o.any (fun p => p.1 = k) = false) : setF o k v = o ++ [(k, v)] := by
  unfold setF
  rw [if_neg (by simp [h])]

/-- Claim C6. With no maxPlayers declared in the room metadata, the
cap is 2 for the turn-based kinds and 8 otherwise: a JOIN by a
present player is rejected as a duplicate with no state change, a
distinct JOIN below the cap is admitted and appends exactly one
player record, and a distinct JOIN at or above the cap is rejected
with the Game-is-full error with no state change. -/
theorem C6_join_cap (g : Game) (st : JObj) (pid : String) (d : JObj) (now : Int)
    (h0 : getF g.metadata "maxPlayers" = none) :
    (truthyO (getF g.players pid) = true →
      handleJoin g st pid d now = rejectWith "Player already in game") ∧
    (getF g.players pid = none →
      ((g.players.length : Int) < (if turnBasedKind g.gameType then 2 else 8) →
        (handleJoin g st pid d now).success = true ∧
        (handleJoin g st pid d now).stateChanged = true ∧
        ∃ rec, (handleJoin g st pid d now).meta.players =
          some (g.players ++ [(pid, rec)])) ∧
      ((if turnBasedKind g.gameType then (2 : Int) else 8) ≤ (g.players.length : Int) →
        handleJoin g st pid d now = rejectWith "Game is full")) := by
  have hmax : maxPlayersOf g = (if turnBasedKind g.gameType then (2 : Int) else 8) := by
    unfold maxPlayersOf jsNumOr
    rw [h0]
  refine ⟨?_, ?_⟩
  · intro hp
    unfold handleJoin
    dsimp only
    rw [if_pos hp]
  · intro hnone
    have hp : ¬ (truthyO (getF g.players pid) = true) := by
      rw [hnone]
      simp [truthyO]
    have hany : g.players.any (fun p => p.1 = pid) = false :=
      (getF_eq_none_iff _ _).1 hnone
    constructor
    · intro hlt
      have hc2 : ¬ (maxPlayersOf g ≤ (g.players.length : Int)) := by
        rw [hmax]
        exact not_le.mpr hlt
      unfold handleJoin
      dsimp only
      rw [if_neg hp, if_neg hc2]
      refine ⟨rfl, rfl,
        ⟨.jobj (mergeF [("id", .jstr pid), ("joinedAt", .jnum now),
                        ("score", .jnum 0), ("active", .jbool true)] d), ?_⟩⟩
      dsimp only
      rw [setF_not_mem _ _ _ hany]
    · intro hge
      have hc2 : maxPlayersOf g ≤ (g.players.length : Int) := by
        rw [hmax]
        exact hge
      unfold handleJoin
      dsimp only
      rw [if_neg hp, if_pos hc2]

/-- Claim C6 witness: on a full default turn-based room the third
distinct JOIN is rejected with the Game-is-full error, and a JOIN by
a present player is rejected as a duplicate. -/
theorem C6_witness :
    handleJoin exFull [] "p3" [] 0 = rejectWith "Game is full" ∧
    handleJoin exFull [] "p1" [] 0 = rejectWith "Player already in game" := by
  have h := C6_join_cap exFull [] "p3" [] 0 (by decide)
  have h2 := C6_join_cap exFull [] "p1" [] 0 (by decide)
  exact ⟨(h.2 (by decide)).2 (by decide), h2.1 (by decide)⟩

/-- Claim C7 (amended). The generic preconditions as the code
enforces them: MOVE requires the active phase and then presence;
UPDATE requires presence unless the submitter is the system id,
which is always admitted; JOIN rejects a present player; START is
rejected exactly when gameActive is truthy; MOVE and END are
rejected when the game is not active; and an active-phase END is
accepted for every submitter, present or not. -/
theorem C7_preconditions (g : Game) (st : JObj) (pid : String) (d : JObj) (now : Int) :
    (truthyO (getF st "gameActive") = true → truthyO (getF g.players pid) = false →
      handleMove g st pid d now = rejectWith "Player not in game") ∧
    (truthyO (getF g.players pid) = false → pid ≠ "system" →
      handleUpdate g st pid d now = rejectWith "Player not in game") ∧
    (pid = "system" →
      (handleUpdate g st pid d now).success = true ∧
      (handleUpdate g st pid d now).stateChanged = true) ∧
    (truthyO (getF g.players pid) = true →
      handleJoin g st pid d now = rejectWith "Player already in game") ∧
    (truthyO (getF st "gameActive") = true →
      handleStart g st pid d now = rejectWith "Game already active") ∧
    (truthyO (getF st "gameActive") = false →
      handleMove g st pid d now = rejectWith "Game not active" ∧
      handleEnd g st pid d now = rejectWith "Game not active") ∧
    (truthyO (getF st "gameActive") = true →
      (handleEnd g st pid d now).success = true ∧
      (handleEnd g st pid d now).stateChanged = true) := by
  refine ⟨?_, ?_, ?_, ?_, ?_, ?_, ?_⟩
  · intro hga hp
    unfold handleMove
    rw [if_neg (by simp [hga]), if_pos (by simp [hp])]
  · intro hp hs
    unfold handleUpdate
    dsimp only
    rw [if_pos ⟨by simp [hp], hs⟩]
  · intro hs
    unfold handleUpdate
    dsimp only
    rw [if_neg (by simp [hs])]
    exact ⟨rfl, rfl⟩
  · intro hp
    unfold handleJoin
    dsimp only
    rw [if_pos hp]
  · intro hga
    unfold handleStart
    rw [if_pos hga]
  · intro hga
    constructor
    · unfold handleMove
      rw [if_pos (by simp [hga])]
    · unfold handleEnd
      rw [if_pos (by simp [hga])]
  · intro hga
    unfold handleEnd
    rw [if_neg (by simp [hga])]
    exact ⟨rfl, rfl⟩

/-- Claim C7 witness: in an active room holding only p1, an UPDATE
by an absent intruder is rejected, the system id passes the UPDATE
presence check, and a MOVE by the intruder is rejected. -/
theorem C7_witness :
    handleUpdate exSolo exSolo.gameState "intruder" [] 3 =
      rejectWith "Player not in game" ∧
    (handleUpdate exSolo exSolo.gameState "system" [] 3).success = true ∧
    handleMove exSolo exSolo.gameState "intruder" [] 3 =
      rejectWith "Player not in game" := by
  have h := C7_preconditions exSolo exSolo.gameState "intruder" [] 3
  have h2 := C7_preconditions exSolo exSolo.gameState "system" [] 3
  exact ⟨h.2.1 (by decide) (by decide), (h2.2.2.1 rfl).1,
    h.1 (by decide) (by decide)⟩

/-- Claim C7 counterexample: an active-phase END submitted by a
player who is not in the room is accepted and changes state, so the
claimed presence precondition for END does not exist in the code. -/
theorem C7_counterexample :
    truthyO (getF exSolo.players "ghost") = false ∧
    (handleEnd exSolo exSolo.gameState "ghost" [] 3).success = true ∧
    (handleEnd exSolo exSolo.gameState "ghost" [] 3).stateChanged = true := by
  decide

/-- Claim C9 (amended). For a validly typed event, emit posts the
event immediately as a singleton batch exactly when the caller sets
options.immediate or batching is off; otherwise the event goes to
the queue, which is flushed within the same emit only when its
length passes 50. Neither the ERROR kind nor a high priority plays
any part in the decision; see the counterexample. -/
theorem C9_batch_policy (b : Bridge) (t p : String) (imm : Bool)
    (hv : validEventTypes.contains t = true) :
    ((imm = true ∨ b.batchEvents = false) →
      (emitEvent b t p imm).1.sent =
        b.sent ++ [[{ etype := t, priority := p, seqNo := b.seq }]] ∧
      (emitEvent b t p imm).1.queue = b.queue) ∧
    (imm = false → b.batchEvents = true →
      ((emitEvent b t p imm).1.queue =
         b.queue ++ [{ etype := t, priority := p, seqNo := b.seq }] ∧
       (emitEvent b t p imm).1.sent = b.sent) ∨
      (50 < b.queue.length + 1 ∧
       (emitEvent b t p imm).1.queue = [] ∧
       (emitEvent b t p imm).1.sent =
         b.sent ++ [b.queue ++ [{ etype := t, priority := p, seqNo := b.seq }]])) := by
  constructor
  · intro h12
    have hcond : (imm || !b.batchEvents) = true := by
      rcases h12 with h | h <;> simp [h]
    unfold emitEvent
    rw [if_neg (not_not_intro hv)]
    dsimp only
    rw [if_pos hcond]
    exact ⟨rfl, rfl⟩
  · intro h1 h2
    have hcond : ¬ ((imm || !b.batchEvents) = true) := by
      simp [h1, h2]
    unfold emitEvent
    rw [if_neg (not_not_intro hv)]
    dsimp only
    rw [if_neg hcond]
    unfold scheduleBatch
    dsimp only
    rw [if_neg (by simp [h2])]
    by_cases h50 : 50 < b.queue.length + 1
    · right
      refine ⟨h50, ?_⟩
      rw [if_pos (by simpa using h50)]
      unfold flushEventQueue
      dsimp only
      rw [if_neg (by simp)]
      exact ⟨rfl, rfl⟩
    · left
      rw [if_neg (by simpa using h50)]
      exact ⟨rfl, rfl⟩

/-- Claim C9 witness: a plainly emitted UPDATE event on a batching
bridge is appended to the queue and nothing is posted. -/
theorem C9_witness :
    (emitEvent (initBridge true) "UPDATE" "normal" false).1.queue =
      [{ etype := "UPDATE", priority := "normal", seqNo := 0 }] ∧
    (emitEvent (initBridge true) "UPDATE" "normal" false).1.sent = [] := by
  have h := (C9_batch_policy (initBridge true) "UPDATE" "normal" false (by decide)).2
    rfl rfl
  rcases h with ⟨h1, h2⟩ | ⟨h50, _⟩
  · exact ⟨h1, h2⟩
  · exact absurd h50 (by decide)

/-- Claim C9 counterexample: an ERROR event of high priority emitted
without options.immediate on a batching bridge is queued, not posted
to the host frame, refuting the claimed bypass for ERROR and
high-priority events. -/
theorem C9_counterexample :
    (emitEvent (initBridge true) "ERROR" "high" false).1.sent = [] ∧
    (emitEvent (initBridge true) "ERROR" "high" false).1.queue =
      [{ etype := "ERROR", priority := "high", seqNo := 0 }] := by
  decide

/-- Claim C10. In handleStart and handleEnd the client data payload
is spread into the new state after the handler computed fields, so
any key the payload shares with them is overwritten by the client
value in the committed state. -/
theorem C10_data_override (g : Game) (st : JObj) (pid : String) (d : JObj)
    (now : Int) (k : String) (v : JVal)
    (hnd : (d.map Prod.fst).Nodup) (hk : getF d k = some v) :
    ((handleStart g st pid d now).success = true →
      getF (handleStart g st pid d now).newState k = some v) ∧
    (truthyO (getF st "gameActive") = true →
      getF (handleEnd g st pid d now).newState k = some v) := by
  constructor
  · intro hs
    unfold handleStart at hs ⊢
    dsimp only at hs ⊢
    split_ifs at hs ⊢ <;>
      first
        | exact getF_mergeF_of_get _ d k v hnd hk
        | simp [rejectWith] at hs
  · intro hga
    unfold handleEnd
    rw [if_neg (by simp [hga])]
    dsimp only
    exact getF_mergeF_of_get _ d k v hnd hk

/-- Claim C10 witness: an END whose payload carries finalScores
overrides the computed final scores, and a START whose payload
carries round overrides the round the handler sets to 1. -/
theorem C10_witness :
    getF (handleEnd exSolo exSolo.gameState "p1"
      [("finalScores", .jstr "fake")] 3).newState "finalScores" =
      some (.jstr "fake") ∧
    getF (handleStart exFull [] "p1" [("round", .jnum 99)] 3).newState "round" =
      some (.jnum 99) := by
  have h := C10_data_override exSolo exSolo.gameState "p1"
    [("finalScores", .jstr "fake")] 3 "finalScores" (.jstr "fake")
    (by decide) (by decide)
  have h2 := C10_data_override exFull [] "p1"
    [("round", .jnum 99)] 3 "round" (.jnum 99) (by decide) (by decide)
  exact ⟨h.2 (by decide), h2.1 (by decide)⟩

/-! Bridge ordering development for claim C8. -/

theorem strictIncB_cons (a : Nat) (l : List Nat)
    (h : strictIncB l = true) (hb : ∀ x ∈ l, a < x) :
    strictIncB (a :: l) = true := by
  cases l with
  | nil => rfl
  | cons c rest =>
    simp only [strictIncB, Bool.and_eq_true, decide_eq_true_eq]
    exact ⟨hb c (by simp), h⟩

theorem strictIncB_append_one (l : List Nat) (n : Nat)
    (h : strictIncB l = true) (hb : ∀ x ∈ l, x < n) :
    strictIncB (l ++ [n]) = true := by
  induction l with
  | nil => rfl
  | cons a rest ih =>
    cases rest with
    | nil =>
      simp only [List.cons_append, List.nil_append, strictIncB,
        Bool.and_eq_true, decide_eq_true_eq]
      exact ⟨hb a (by simp), trivial⟩
    | cons c rest2 =>
      simp only [strictIncB, Bool.and_eq_true, decide_eq_true_eq] at h
      have htail := ih h.2 (fun x hx => hb x (by simp [hx]))
      simp only [List.cons_append, strictIncB, Bool.and_eq_true,
        decide_eq_true_eq] at htail ⊢
      exact ⟨h.1, htail⟩

theorem flushEventQueue_seq (b : Bridge) : (flushEventQueue b).seq = b.seq := by
  unfold flushEventQueue
  split <;> rfl

theorem scheduleBatch_seq (b : Bridge) : (scheduleBatch b).seq = b.seq := by
  unfold scheduleBatch
  split
  · rfl
  · split
    · exact flushEventQueue_seq b
    · rfl

theorem emitEvent_invalid (b : Bridge) (t p : String) (i : Bool)
    (h : ¬ validEventTypes.contains t = true) :
    emitEvent b t p i = (b, none) := by
  unfold emitEvent
  rw [if_pos h]

theorem emitEvent_immediate (b : Bridge) (t p : String) (i : Bool)
    (hv : validEventTypes.contains t = true)
    (hc : (i || !b.batchEvents) = true) :
    emitEvent b t p i =
      ({ b with
          seq := b.seq + 1,
          sent := b.sent ++ [[{ etype := t, priority := p, seqNo := b.seq }]] },
       some { etype := t, priority := p, seqNo := b.seq }) := by
  unfold emitEvent
  rw [if_neg (not_not_intro hv)]
  dsimp only
  rw [if_pos hc]

theorem emitEvent_queued (b : Bridge) (t p : String) (i : Bool)
    (hv : validEventTypes.contains t = true)
    (hc : ¬ ((i || !b.batchEvents) = true)) :
    emitEvent b t p i =
      (scheduleBatch
        { b with
            seq := b.seq + 1,
            queue := b.queue ++ [{ etype := t, priority := p, seqNo := b.seq }] },
       some { etype := t, priority := p, seqNo := b.seq }) := by
  unfold emitEvent
  rw [if_neg (not_not_intro hv)]
  dsimp only
  rw [if_neg hc]

theorem seq_le_stepOp (b : Bridge) (op : BridgeOp) : b.seq ≤ (stepOp b op).seq := by
  cases op with
  | emitOp t p i =>
    simp only [stepOp]
    by_cases hv : validEventTypes.contains t = true
    · by_cases hc : (i || !b.batchEvents) = true
      · rw [emitEvent_immediate b t p i hv hc]
        exact Nat.le_succ _
      · rw [emitEvent_queued b t p i hv hc]
        dsimp only
        rw [scheduleBatch_seq]
        exact Nat.le_succ _
    · rw [emitEvent_invalid b t p i hv]
  | flushOp =>
    simp only [stepOp]
    rw [flushEventQueue_seq]
  | setBatch v => exact le_refl _

theorem bridgeOK_flush (b : Bridge) (h : bridgeOK b) : bridgeOK (flushEventQueue b) := by
  obtain ⟨h1, h2, h3⟩ := h
  unfold flushEventQueue
  split
  · exact ⟨h1, h2, h3⟩
  · refine ⟨rfl, by simp, ?_⟩
    simp only [List.all_append, Bool.and_eq_true, List.all_cons, List.all_nil]
    exact ⟨h3, h1, trivial⟩

theorem bridgeOK_schedule (b : Bridge) (h : bridgeOK b) : bridgeOK (scheduleBatch b) := by
  unfold scheduleBatch
  split
  · exact h
  · split
    · exact bridgeOK_flush b h
    · exact h

theorem bridgeOK_step (b : Bridge) (op : BridgeOp) (h : bridgeOK b) :
    bridgeOK (stepOp b op) := by
  obtain ⟨h1, h2, h3⟩ := h
  cases op with
  | emitOp t p i =>
    simp only [stepOp]
    by_cases hv : validEventTypes.contains t = true
    · by_cases hc : (i || !b.batchEvents) = true
      · rw [emitEvent_immediate b t p i hv hc]
        refine ⟨h1, ?_, ?_⟩
        · intro e he
          exact Nat.lt_succ_of_lt (h2 e he)
        · simp only [List.all_append, Bool.and_eq_true, List.all_cons, List.all_nil]
          exact ⟨h3, rfl, trivial⟩
      · rw [emitEvent_queued b t p i hv hc]
        apply bridgeOK_schedule
        refine ⟨?_, ?_, h3⟩
        · simp only [seqsOf, List.map_append, List.map_cons, List.map_nil]
          refine strictIncB_append_one _ _ h1 ?_
          intro x hx
          obtain ⟨e, he, rfl⟩ := List.mem_map.1 (by simpa [seqsOf] using hx)
          exact h2 e he
        · intro e he
          rcases List.mem_append.1 he with he2 | he2
          · exact Nat.lt_succ_of_lt (h2 e he2)
          · have he3 : e = { etype := t, priority := p, seqNo := b.seq } := by
              simpa using he2
            rw [he3]
            exact Nat.lt_succ_self _
    · rw [emitEvent_invalid b t p i hv]
      exact ⟨h1, h2, h3⟩
  | flushOp => exact bridgeOK_flush b ⟨h1, h2, h3⟩
  | setBatch v => exact ⟨h1, h2, h3⟩

theorem bridgeOK_run (b : Bridge) (ops : List BridgeOp) (h : bridgeOK b) :
    bridgeOK (runOps b ops) := by
  induction ops generalizing b with
  | nil => exact h
  | cons op rest ih => exact ih _ (bridgeOK_step b op h)

theorem bridgeOK_init (flag : Bool) : bridgeOK (initBridge flag) := by
  refine ⟨rfl, by simp [initBridge], rfl⟩

theorem emitEvent_some (b : Bridge) (t p : String) (i : Bool) (e : BEvent)
    (h : (emitEvent b t p i).2 = some e) :
    e.seqNo = b.seq ∧ b.seq + 1 ≤ (emitEvent b t p i).1.seq := by
  by_cases hv : validEventTypes.contains t = true
  · by_cases hc : (i || !b.batchEvents) = true
    · rw [emitEvent_immediate b t p i hv hc] at h ⊢
      have he : { etype := t, priority := p, seqNo := b.seq : BEvent } = e := by
        simpa using h
      exact ⟨by rw [← he], le_refl _⟩
    · rw [emitEvent_queued b t p i hv hc] at h ⊢
      have he : { etype := t, priority := p, seqNo := b.seq : BEvent } = e := by
        simpa using h
      refine ⟨by rw [← he], ?_⟩
      dsimp only
      rw [scheduleBatch_seq]
  · rw [emitEvent_invalid b t p i hv] at h
    simp at h

theorem emittedSeqs_lb (ops : List BridgeOp) :
    ∀ (b : Bridge), ∀ x ∈ emittedSeqs b ops, b.seq ≤ x := by
  induction ops with
  | nil =>
    intro b x hx
    simp [emittedSeqs] at hx
  | cons op rest ih =>
    intro b x hx
    cases op with
    | emitOp t p i =>
      simp only [emittedSeqs] at hx
      cases hm : (emitEvent b t p i).2 with
      | none =>
        rw [hm] at hx
        exact le_trans (seq_le_stepOp b (.emitOp t p i)) (ih _ x hx)
      | some e =>
        rw [hm] at hx
        rcases List.mem_cons.1 hx with rfl | hx2
        · exact le_of_eq (emitEvent_some b t p i e hm).1.symm
        · exact le_trans (seq_le_stepOp b (.emitOp t p i)) (ih _ x hx2)
    | flushOp =>
      simp only [emittedSeqs] at hx
      exact le_trans (seq_le_stepOp b .flushOp) (ih _ x hx)
    | setBatch v =>
      simp only [emittedSeqs] at hx
      exact le_trans (seq_le_stepOp b (.setBatch v)) (ih _ x hx)

theorem emittedSeqs_strict (ops : List BridgeOp) :
    ∀ (b : Bridge), strictIncB (emittedSeqs b ops) = true := by
  induction ops with
  | nil =>
    intro b
    rfl
  | cons op rest ih =>
    intro b
    cases op with
    | emitOp t p i =>
      simp only [emittedSeqs]
      cases hm : (emitEvent b t p i).2 with
      | none => exact ih _
      | some e =>
        refine strictIncB_cons _ _ (ih _) ?_
        intro x hx
        have hb := emittedSeqs_lb rest _ x hx
        have hstep : b.seq + 1 ≤ (stepOp b (.emitOp t p i)).seq := by
          simpa [stepOp] using (emitEvent_some b t p i e hm).2
        have hle := le_trans hstep hb
        rw [(emitEvent_some b t p i e hm).1]
        exact lt_of_lt_of_le (Nat.lt_succ_self _) hle
    | flushOp =>
      simp only [emittedSeqs]
      exact ih _
    | setBatch v =>
      simp only [emittedSeqs]
      exact ih _

/-- Claim C8. Over any run of a bridge session, the sequence numbers
stamped on the events emit returns are strictly increasing across
the whole session, and every batch posted to the host frame carries
its events in strictly increasing sequence number, that is, in emit
order. -/
theorem C8_order (batchOn : Bool) (ops : List BridgeOp) :
    strictIncB (emittedSeqs (initBridge batchOn) ops) = true ∧
    (runOps (initBridge batchOn) ops).sent.all
      (fun batch => strictIncB (seqsOf batch)) = true :=
  ⟨emittedSeqs_strict ops (initBridge batchOn),
   (bridgeOK_run (initBridge batchOn) ops (bridgeOK_init batchOn)).2.2⟩

/-! Win condition development for claim C5. -/

theorem findSome_mem_of_eq_some {α β : Type} (f : α → Option β) (l : List α) (v : β)
    (h : l.findSome? f = some v) : ∃ x ∈ l, f x = some v := by
  induction l with
  | nil => simp [List.findSome?] at h
  | cons a rest ih =>
    rw [List.findSome?] at h
    cases hf : f a with
    | some w =>
      rw [hf] at h
      refine ⟨a, by simp, ?_⟩
      rw [hf]
      exact h
    | none =>
      rw [hf] at h
      obtain ⟨x, hx, hfx⟩ := ih h
      exact ⟨x, by simp [hx], hfx⟩

theorem findSome_isSome_of_mem {α β : Type} (f : α → Option β) (l : List α)
    (x : α) (v : β) (hx : x ∈ l) (hf : f x = some v) :
    ∃ w, l.findSome? f = some w := by
  induction l with
  | nil => simp at hx
  | cons a rest ih =>
    rw [List.findSome?]
    cases hfa : f a with
    | some w => exact ⟨w, rfl⟩
    | none =>
      rcases List.mem_cons.1 hx with rfl | hx2
      · rw [hfa] at hf
        exact absurd hf (by simp)
      · exact ih hx2

theorem winPatterns_shape (pat : List String) (h : pat ∈ winPatterns) :
    ∃ a1 a2 a3, pat = [a1, a2, a3] := by
  simp only [winPatterns, List.mem_cons, List.not_mem_nil, or_false] at h
  rcases h with rfl | rfl | rfl | rfl | rfl | rfl | rfl | rfl <;>
    exact ⟨_, _, _, rfl⟩

theorem patternWinner_cells (b : JObj) (a1 a2 a3 : String) (w : String)
    (h1 : getF b a1 = some (.jstr w)) (h2 : getF b a2 = some (.jstr w))
    (h3 : getF b a3 = some (.jstr w)) (hw : w ≠ "") :
    patternWinner b [a1, a2, a3] = some (.jstr w) := by
  unfold patternWinner
  simp [h1, h2, h3, truthy, hw]

/-- The board branch of checkWinCondition: with no target score, not
exactly one active player, a board of at least five cells, some win
pattern fully marked by w, and no pattern uniformly marked by
another value, the win check reports w. -/
theorem checkWin_board (state : JObj) (players : JObj) (b : JObj) (w : String)
    (hts : getF state "targetScore" = none)
    (hact : (activeIds players).length ≠ 1)
    (hb : getF state "board" = some (.jobj b)) (h5 : 5 ≤ b.length)
    (hex : ∃ pat ∈ winPatterns, ∀ pos ∈ pat, getF b pos = some (.jstr w))
    (hw : w ≠ "")
    (huniq : ∀ q ∈ winPatterns,
      patternWinner b q = none ∨ patternWinner b q = some (.jstr w)) :
    checkWinCondition state players = some (.jstr w) := by
  obtain ⟨pat, hpat, hcells⟩ := hex
  obtain ⟨a1, a2, a3, rfl⟩ := winPatterns_shape pat hpat
  have hpw : patternWinner b [a1, a2, a3] = some (.jstr w) :=
    patternWinner_cells b a1 a2 a3 w (hcells a1 (by simp)) (hcells a2 (by simp))
      (hcells a3 (by simp)) hw
  have hfind : winPatterns.findSome? (patternWinner b) = some (.jstr w) := by
    obtain ⟨v, hv⟩ :=
      findSome_isSome_of_mem (patternWinner b) winPatterns _ _ hpat hpw
    obtain ⟨q, hq, hqv⟩ := findSome_mem_of_eq_some (patternWinner b) winPatterns v hv
    rcases huniq q hq with hn | hs
    · rw [hn] at hqv
      exact absurd hqv (by simp)
    · rw [hs] at hqv
      rw [hv, ← hqv]
  unfold checkWinCondition
  rw [hts]
  dsimp only
  rcases hids : activeIds players with _ | ⟨a, _ | ⟨c, rest⟩⟩
  · rw [hb]
    dsimp only
    rw [if_pos h5]
    exact hfind
  · exact absurd (by simp [hids]) hact
  · rw [hb]
    dsimp only
    rw [if_pos h5]
    exact hfind

/-- Claim C5 (amended). For an accepted MOVE whose updated state
carries no target score, with the active player count different from
one, the win check fires exactly when the board holds at least five
values: when some pattern is fully marked by w and every uniformly
marked pattern is marked by w, the committed state records w as the
winner and leaves the active phase. With fewer than five board
values the check is skipped entirely; see the counterexample. -/
theorem C5_generic_win (game : Game) (st : JObj) (pid : String) (d : JObj)
    (now : Int) (b : JObj) (w : String)
    (h1 : (handleMove game st pid d now).success = true)
    (hts : getF (moveUpdatedState game st pid d now) "targetScore" = none)
    (hact : (activeIds game.players).length ≠ 1)
    (hb : getF (moveUpdatedState game st pid d now) "board" = some (.jobj b))
    (h5 : 5 ≤ b.length)
    (hex : ∃ pat ∈ winPatterns, ∀ pos ∈ pat, getF b pos = some (.jstr w))
    (hw : w ≠ "")
    (huniq : ∀ q ∈ winPatterns,
      patternWinner b q = none ∨ patternWinner b q = some (.jstr w)) :
    getF (handleMove game st pid d now).newState "winner" = some (.jstr w) ∧
    getF (handleMove game st pid d now).newState "gameActive" =
      some (.jbool false) := by
  have hwin : checkWinCondition (moveUpdatedState game st pid d now) game.players =
      some (.jstr w) :=
    checkWin_board _ _ b w hts hact hb h5 hex hw huniq
  unfold handleMove at h1 ⊢
  split_ifs at h1 ⊢ <;> try simp [rejectWith] at h1
  dsimp only
  rw [hwin]
  dsimp only
  rw [if_pos (by simp [truthy, hw])]
  simp only [mergeF_cons, mergeF_nil]
  constructor
  · rw [getF_setF_ne _ _ _ _ (by decide), getF_setF_self]
  · rw [getF_setF_ne _ _ _ _ (by decide),
      getF_setF_ne _ _ _ _ (by decide), getF_setF_self]

/-- Claim C5 witness: the diagonal scenario of the spec. After the
moves 0,0 by p1, 1,0 by p2, 1,1 by p1, 2,0 by p2, the fifth accepted
MOVE 2,2 by p1 fills the diagonal on a five cell board, and the
committed state records winner p1 and gameActive false. -/
theorem C5_witness :
    getF (handleMove exTtt exTttS4 "p1" (posData "2,2") 5).newState "winner" =
      some (.jstr "p1") ∧
    getF (handleMove exTtt exTttS4 "p1" (posData "2,2") 5).newState "gameActive" =
      some (.jbool false) :=
  C5_generic_win exTtt exTttS4 "p1" (posData "2,2") 5 exTttBoard "p1"
    (by decide) (by decide) (by decide) (by decide) (by decide)
    ⟨["0,0", "1,1", "2,2"], by decide, by decide⟩ (by decide) (by decide)

/-- Claim C5 counterexample: in an active room with no turn
tracking, three accepted moves by p1 fill the whole top row, yet the
board holds only three values, so the win check never runs: no
winner is set and the room stays active, refuting the claim for
every accepted MOVE that completes a line. -/
theorem C5_counterexample :
    (handleMove exFree exFreeS2 "p1" (posData "0,2") 3).success = true ∧
    getF (handleMove exFree exFreeS2 "p1" (posData "0,2") 3).newState "board" =
      some (.jobj [("0,0", .jstr "p1"), ("0,1", .jstr "p1"), ("0,2", .jstr "p1")]) ∧
    getF (handleMove exFree exFreeS2 "p1" (posData "0,2") 3).newState "winner" =
      none ∧
    getF (handleMove exFree exFreeS2 "p1" (posData "0,2") 3).newState "gameActive" =
      some (.jbool true) := by
  decide

/-! Turn rotation development for claim C4. -/

theorem jsIndexOf_eq_none (l : List String) (x : String) :
    jsIndexOf l x = none ↔ x ∉ l := by
  induction l with
  | nil => simp [jsIndexOf]
  | cons a rest ih =>
    by_cases h : a = x
    · simp [jsIndexOf, h]
    · have hxa : ¬ (x = a) := fun hh => h hh.symm
      simp [jsIndexOf, h, Option.map_eq_none', ih, hxa]

theorem jsIndexOf_getElem (l : List String) (x : String) (i : Nat)
    (h : jsIndexOf l x = some i) : l[i]? = some x := by
  induction l generalizing i with
  | nil => simp [jsIndexOf] at h
  | cons a rest ih =>
    by_cases ha : a = x
    · rw [jsIndexOf, if_pos ha] at h
      have h0 : i = 0 := by simpa using h.symm
      subst h0
      simp [ha]
    · rw [jsIndexOf, if_neg ha, Option.map_eq_some'] at h
      obtain ⟨j, hj, rfl⟩ := h
      simpa using ih j hj

theorem jsIndexOf_lt_length (l : List String) (x : String) (i : Nat)
    (h : jsIndexOf l x = some i) : i < l.length :=
  (List.getElem?_eq_some.1 (jsIndexOf_getElem l x i h)).choose

theorem jsIndexOf_append_cons (l1 l2 : List String) (x : String) (h : x ∉ l1) :
    jsIndexOf (l1 ++ x :: l2) x = some l1.length := by
  induction l1 with
  | nil => simp [jsIndexOf]
  | cons a rest ih =>
    have hax : ¬ (a = x) := fun hh => h (by simp [hh])
    have hxr : x ∉ rest := fun hm => h (by simp [hm])
    simp [jsIndexOf, hax, ih hxr]

theorem rotation_head (l : List String) (j : Nat) (hj : j < l.length) :
    (l.drop (j + 1) ++ l.take (j + 1)).head? = l[(j + 1) % l.length]? := by
  by_cases hlt : j + 1 < l.length
  · rw [Nat.mod_eq_of_lt hlt]
    have hne : l.drop (j + 1) ≠ [] := by
      rw [ne_eq, List.drop_eq_nil_iff]
      omega
    rw [List.head?_append_of_ne_nil _ hne]
    exact List.head?_drop l (j + 1)
  · have heq : j + 1 = l.length := by omega
    rw [heq, Nat.mod_self, List.drop_length, List.take_length, List.nil_append]
    cases l with
    | nil => simp at hj
    | cons a rest => simp

theorem activeIds_eq_filter (players : JObj)
    (hnd : (players.map Prod.fst).Nodup) :
    activeIds players = (players.map Prod.fst).filter (actOf players) := by
  induction players with
  | nil => rfl
  | cons p rest ih =>
    simp only [List.map_cons, List.nodup_cons] at hnd
    have htail : (rest.map Prod.fst).filter (actOf (p :: rest)) =
        (rest.map Prod.fst).filter (actOf rest) := by
      apply List.filter_congr
      intro x hx
      have hne2 : ¬ (p.1 = x) := fun hh => hnd.1 (hh ▸ hx)
      unfold actOf
      rw [getF, if_neg hne2]
    have hhead : actOf (p :: rest) p.1 = isActiveRec p.2 := by
      unfold actOf
      rw [getF, if_pos rfl]
    unfold activeIds at ih ⊢
    by_cases ha : isActiveRec p.2 = true
    · simp [List.filter_cons, ha, hhead, htail, ih hnd.2]
    · simp [List.filter_cons, ha, hhead, htail, ih hnd.2]

theorem activeIds_nodup (players : JObj)
    (hnd : (players.map Prod.fst).Nodup) : (activeIds players).Nodup := by
  rw [activeIds_eq_filter players hnd]
  exact hnd.filter _

theorem mem_activeIds (players : JObj) (x : String)
    (hnd : (players.map Prod.fst).Nodup) :
    x ∈ activeIds players ↔
      (x ∈ players.map Prod.fst ∧ actOf players x = true) := by
  rw [activeIds_eq_filter players hnd]
  simp [List.mem_filter]

/-- Splitting the filtered list around an element of the full list:
the index of p in the filtered list is the number of active entries
before it, and filtering the rotation of the full list around p is
the rotation of the filtered list around p. -/
theorem filter_rotation (full : List String) (act : String → Bool) (p : String)
    (hnd : full.Nodup) (m : Nat) (hm : jsIndexOf full p = some m)
    (hact : act p = true) :
    jsIndexOf (full.filter act) p = some ((full.take m).filter act).length ∧
    (full.drop (m + 1) ++ full.take (m + 1)).filter act =
      (full.filter act).drop (((full.take m).filter act).length + 1) ++
        (full.filter act).take (((full.take m).filter act).length + 1) := by
  have hget : full[m]? = some p := jsIndexOf_getElem full p m hm
  have htake1 : full.take (m + 1) = full.take m ++ [p] := by
    rw [List.take_succ, hget]
    rfl
  have hpnot : p ∉ full.take m := by
    have h1 : (full.take (m + 1)).Nodup :=
      hnd.sublist (List.take_sublist (m + 1) full)
    rw [htake1] at h1
    intro hp
    exact (List.nodup_append.1 h1).2.2 hp (by simp)
  have hfp : p ∉ (full.take m).filter act :=
    fun hp => hpnot (List.mem_of_mem_filter hp)
  have hone : [p].filter act = [p] := by simp [hact]
  have hids : full.filter act =
      ((full.take m).filter act) ++ p :: ((full.drop (m + 1)).filter act) := by
    conv_lhs => rw [← List.take_append_drop (m + 1) full]
    rw [List.filter_append, htake1, List.filter_append, hone]
    simp
  constructor
  · rw [hids]
    exact jsIndexOf_append_cons _ _ _ hfp
  · rw [List.filter_append, htake1, List.filter_append, hone, hids]
    have hsplit : (full.take m).filter act ++ p :: (full.drop (m + 1)).filter act
        = ((full.take m).filter act ++ [p]) ++ (full.drop (m + 1)).filter act := by
      simp
    have hlenA : (((full.take m).filter act) ++ [p]).length =
        ((full.take m).filter act).length + 1 := by simp
    rw [hsplit, ← hlenA, List.drop_left, List.take_left]

theorem nextTurnVal_spec (players : JObj) (pid : String)
    (hnd : (players.map Prod.fst).Nodup) (hmem : pid ∈ activeIds players) :
    some (nextTurnVal players pid) =
      (specNextActive (players.map Prod.fst) (actOf players) pid).map
        (fun q => JVal.jstr q) := by
  have hfe := activeIds_eq_filter players hnd
  have hfull : pid ∈ players.map Prod.fst :=
    ((mem_activeIds players pid hnd).1 hmem).1
  have hact : actOf players pid = true :=
    ((mem_activeIds players pid hnd).1 hmem).2
  obtain ⟨m, hm⟩ : ∃ m, jsIndexOf (players.map Prod.fst) pid = some m := by
    cases h : jsIndexOf (players.map Prod.fst) pid with
    | none => exact absurd hfull (by rwa [jsIndexOf_eq_none] at h)
    | some m => exact ⟨m, rfl⟩
  have hrot := filter_rotation (players.map Prod.fst) (actOf players) pid hnd m hm hact
  have hidx : jsIndexOf (activeIds players) pid =
      some (((players.map Prod.fst).take m).filter (actOf players)).length := by
    rw [hfe]
    exact hrot.1
  have hjlt := jsIndexOf_lt_length _ _ _ hidx
  have hlenpos : 0 < (activeIds players).length :=
    List.length_pos_of_mem hmem
  have hmlt : ((((players.map Prod.fst).take m).filter (actOf players)).length + 1)
      % (activeIds players).length < (activeIds players).length :=
    Nat.mod_lt _ hlenpos
  obtain ⟨x, hx⟩ :
      ∃ x, (activeIds players)[((((players.map Prod.fst).take m).filter
        (actOf players)).length + 1) % (activeIds players).length]? = some x :=
    ⟨_, List.getElem?_eq_getElem hmlt⟩
  have hspec : specNextActive (players.map Prod.fst) (actOf players) pid = some x := by
    unfold specNextActive
    rw [hm]
    dsimp only
    rw [hrot.2, ← hfe, rotation_head _ _ hjlt, hx]
  rw [hspec]
  unfold nextTurnVal
  rw [if_neg (by simp [List.isEmpty_iff, List.ne_nil_of_mem hmem]), hidx]
  dsimp only
  rw [hx]
  rfl

theorem nextTurnVal_not_mem (players : JObj) (pid : String)
    (hn : pid ∉ activeIds players) :
    nextTurnVal players pid =
      (match (activeIds players).head? with
       | some q => JVal.jstr q
       | none => JVal.jnull) := by
  have hidx : jsIndexOf (activeIds players) pid = none :=
    (jsIndexOf_eq_none _ _).2 hn
  unfold nextTurnVal
  cases hids : activeIds players with
  | nil => simp
  | cons a rest =>
    rw [hids] at hidx
    rw [if_neg (by simp), hidx]
    dsimp only
    simp

theorem nextTurnVal_self (players : JObj) (pid : String)
    (hnd : (players.map Prod.fst).Nodup)
    (h : nextTurnVal players pid = .jstr pid) :
    activeIds players = [pid] := by
  have hnodup := activeIds_nodup players hnd
  unfold nextTurnVal at h
  cases hids : activeIds players with
  | nil =>
    rw [hids] at h
    simp at h
  | cons a rest =>
    rw [hids] at h hnodup
    rw [if_neg (by simp)] at h
    cases hidx : jsIndexOf (a :: rest) pid with
    | none =>
      rw [hidx] at h
      dsimp only at h
      have hpn : pid ∉ a :: rest := (jsIndexOf_eq_none _ _).1 hidx
      have hap : a = pid := by simpa using h
      exact absurd (hap ▸ List.mem_cons_self a rest) hpn
    | some jj =>
      rw [hidx] at h
      dsimp only at h
      have hjlt : jj < (a :: rest).length := jsIndexOf_lt_length _ _ _ hidx
      have hjget : (a :: rest)[jj]? = some pid := jsIndexOf_getElem _ _ _ hidx
      have hmlt : (jj + 1) % (a :: rest).length < (a :: rest).length :=
        Nat.mod_lt _ (by simp)
      obtain ⟨x, hx⟩ : ∃ x, (a :: rest)[(jj + 1) % (a :: rest).length]? = some x :=
        ⟨_, List.getElem?_eq_getElem hmlt⟩
      rw [hx] at h
      have hxp : x = pid := by simpa using h
      have heqidx : (jj + 1) % (a :: rest).length = jj :=
        List.getElem?_inj hmlt hnodup (by rw [hx, hjget, hxp])
      have hlen : (a :: rest).length = 1 := by
        by_contra hne2
        have hge2 : 2 ≤ (a :: rest).length := by
          simp only [List.length_cons] at hne2 ⊢
          omega
        rcases Nat.lt_or_ge (jj + 1) ((a :: rest).length) with hlt | hge
        · rw [Nat.mod_eq_of_lt hlt] at heqidx
          omega
        · have hj1 : jj + 1 = (a :: rest).length := by omega
          rw [hj1, Nat.mod_self] at heqidx
          omega
      have hrest : rest = [] := by simpa using hlen
      subst hrest
      have hjj : jj = 0 := by omega
      subst hjj
      have hap : a = pid := by simpa using hjget
      rw [hap]

theorem handleMove_currentTurn (game : Game) (st : JObj) (pid : String)
    (d : JObj) (now : Int)
    (h1 : (handleMove game st pid d now).success = true)
    (h2 : truthyO (getF st "currentTurn") = true) :
    getF (handleMove game st pid d now).newState "currentTurn" =
      some (nextTurnVal game.players pid) := by
  have hu : getF (moveUpdatedState game st pid d now) "currentTurn" =
      some (nextTurnVal game.players pid) := by
    unfold moveUpdatedState
    dsimp only
    rw [if_pos h2]
    cases hpos : getF d "position" with
    | none => exact getF_setF_self _ _ _
    | some posv =>
      dsimp only
      rw [getF_setF_ne _ _ _ _ (by decide)]
      exact getF_setF_self _ _ _
  unfold handleMove at h1 ⊢
  split_ifs at h1 ⊢ <;> try simp [rejectWith] at h1
  dsimp only
  cases hw : checkWinCondition (moveUpdatedState game st pid d now) game.players with
  | none => exact hu
  | some wv =>
    dsimp only
    by_cases ht : truthy wv = true
    · rw [if_pos ht, getF_mergeF_not_mem _ _ _ (by simp)]
      exact hu
    · rw [if_neg ht]
      exact hu

/-- Claim C4 (amended). After an accepted MOVE by pid in a room that
tracks currentTurn: when pid is active the new turn holder is the
next non-eliminated player after pid in insertion order modulo the
active set, exactly as the spec words it; when pid is itself
eliminated (possible when the stored turn points at an eliminated
player) the code instead hands the turn to the first active player
in insertion order, or null when no player is active; in either case
the new holder is pid only when pid is the sole active player. -/
theorem C4_turn_advance (game : Game) (st : JObj) (pid : String) (d : JObj)
    (now : Int)
    (h1 : (handleMove game st pid d now).success = true)
    (h2 : truthyO (getF st "currentTurn") = true)
    (hnd : (game.players.map Prod.fst).Nodup) :
    (pid ∈ activeIds game.players →
      getF (handleMove game st pid d now).newState "currentTurn" =
        (specNextActive (game.players.map Prod.fst) (actOf game.players) pid).map
          (fun q => JVal.jstr q)) ∧
    (pid ∉ activeIds game.players →
      getF (handleMove game st pid d now).newState "currentTurn" =
        some (match (activeIds game.players).head? with
              | some q => JVal.jstr q
              | none => JVal.jnull)) ∧
    (activeIds game.players ≠ [pid] →
      getF (handleMove game st pid d now).newState "currentTurn" ≠
        some (.jstr pid)) := by
  have hct := handleMove_currentTurn game st pid d now h1 h2
  refine ⟨?_, ?_, ?_⟩
  · intro hmem
    rw [hct]
    exact nextTurnVal_spec game.players pid hnd hmem
  · intro hn
    rw [hct, nextTurnVal_not_mem game.players pid hn]
  · intro hne heq
    rw [hct] at heq
    exact hne (nextTurnVal_self game.players pid hnd (Option.some.inj heq))

/-- Claim C4 witness: in the two player room with p1 to move, the
accepted MOVE hands the turn to p2, which is the next active player
after p1 in insertion order, and is not p1. -/
theorem C4_witness :
    getF (handleMove exTtt exTtt.gameState "p1" (posData "0,0") 1).newState
        "currentTurn" =
      (specNextActive (exTtt.players.map Prod.fst) (actOf exTtt.players) "p1").map
        (fun q => JVal.jstr q) ∧
    getF (handleMove exTtt exTtt.gameState "p1" (posData "0,0") 1).newState
        "currentTurn" ≠ some (.jstr "p1") := by
  have h := C4_turn_advance exTtt exTtt.gameState "p1" (posData "0,0") 1
    (by decide) (by decide) (by decide)
  exact ⟨h.1 (by decide), h.2.2 (by decide)⟩

/-- Claim C4 counterexample: with players A, P, B in insertion order
where P is eliminated and A, B active, an accepted MOVE by the
stored turn holder P sets currentTurn to A, while the next
non-eliminated player after P in insertion order modulo the active
set is B, refuting the claimed rotation rule. -/
theorem C4_counterexample :
    (handleMove exElim exElim.gameState "P" [] 7).success = true ∧
    getF (handleMove exElim exElim.gameState "P" [] 7).newState "currentTurn" =
      some (.jstr "A") ∧
    specNextActive (exElimPlayers.map Prod.fst) (actOf exElimPlayers) "P" =
      some "B" ∧
    getF (handleMove exElim exElim.gameState "P" [] 7).newState "currentTurn" ≠
      (specNextActive (exElimPlayers.map Prod.fst) (actOf exElimPlayers) "P").map
        (fun q => JVal.jstr q) := by
  decide

end MultiGame
